import Mathlib

/-!
Shallow embedding of the SAMVAD dialogue-analysis core (Python backend):
pramana_classifier.py, value_extractor.py, tarka_engine.py,
hidden_agreement_detector.py and samvad_analyzer.py.

Texts are modelled as lists of characters.  The restricted regular
expressions used by the source (word-boundary anchored literal
alternations, one greedy dot-plus form, and keyword-with-suffix
extension) are implemented directly.  Python dictionaries are modelled
as association lists in insertion order; Python set iteration order is
modelled as first-encountered (insertion) order.  Python floats are
modelled as rationals.
-/

namespace Samvad

/-- Python regex word character for lowercased ASCII text. -/
def isWordChar (c : Char) : Bool := c.isAlphanum || c == '_'

/-- Literal occurrence test: the list a occurs in s starting at index p. -/
def litAt (s : List Char) (p : Nat) (a : List Char) : Bool :=
  (s.drop p).take a.length == a

/-- Word boundary immediately before index p, for a pattern starting with a
word character: start of string or a non-word character at p - 1. -/
def boundaryBefore (s : List Char) (p : Nat) : Bool :=
  match p with
  | 0 => true
  | q + 1 => !(isWordChar (s.getD q ' '))

/-- Word boundary immediately before index e, for a pattern ending with a
word character: end of string or a non-word character at e. -/
def boundaryAfter (s : List Char) (e : Nat) : Bool :=
  !(isWordChar (s.getD e ' '))

/-- Length of the run of word characters starting at index p. -/
def wordRun (s : List Char) (p : Nat) : Nat :=
  ((s.drop p).takeWhile isWordChar).length

/-- Match of a word-boundary-anchored alternation of literals at index p,
alternatives tried left to right; returns the matched length. -/
def altMatchAt (s : List Char) (p : Nat) (alts : List (List Char)) : Option Nat :=
  if boundaryBefore s p then
    alts.findSome? fun a =>
      if litAt s p a && boundaryAfter s (p + a.length) then some a.length else none
  else none

/-- True when no newline occurs in s at indices a, a+1, ..., b-1. -/
def noNewline (s : List Char) (a b : Nat) : Bool :=
  ((s.drop a).take (b - a)).all fun c => c != '\n'

/-- Match of a pattern of the shape word-boundary, literal pre, greedy
dot-plus, literal suf, word-boundary, at index p.  Greedy: the suffix
occurrence chosen is the rightmost one reachable without crossing a
newline, with at least one character consumed by the dot-plus. -/
def wildMatchAt (s : List Char) (p : Nat) (pre suf : List Char) : Option Nat :=
  if boundaryBefore s p && litAt s p pre then
    let start := p + pre.length
    let ok := fun q => decide (start + 1 ≤ q) && litAt s q suf &&
      boundaryAfter s (q + suf.length) && noNewline s start q
    match ((List.range (s.length + 1)).filter ok).getLast? with
    | some q => some (q + suf.length - p)
    | none => none
  else none

/-- The restricted pattern language used by the source modules. -/
inductive Pat where
  | alts : List String → Pat
  | wild : String → String → Pat
deriving DecidableEq

/-- Match of a pattern at index p, returning the matched length. -/
def patMatchAt (s : List Char) (p : Nat) : Pat → Option Nat
  | .alts l => altMatchAt s p (l.map String.data)
  | .wild pre suf => wildMatchAt s p pre.data suf.data

/-- Match of a value keyword extended by trailing word characters
(keyword as a prefix of a larger token), at index p. -/
def kwMatchAt (s : List Char) (p : Nat) (kw : List Char) : Option Nat :=
  if boundaryBefore s p && litAt s p kw then
    some (kw.length + wordRun s (p + kw.length))
  else none

/-- Left-to-right non-overlapping scan: at each index try the matcher; on a
match record (start, length) and resume after its end, else advance one. -/
def scanAux (matchAt : Nat → Option Nat) : Nat → Nat → List (Nat × Nat)
  | _, 0 => []
  | p, fuel + 1 =>
    match matchAt p with
    | some len => (p, len) :: scanAux matchAt (p + len) fuel
    | none => scanAux matchAt (p + 1) fuel

/-- All non-overlapping matches of a matcher over the whole text. -/
def scanMatches (s : List Char) (matchAt : Nat → Option Nat) : List (Nat × Nat) :=
  scanAux matchAt 0 (s.length + 1)

/-- Lowercased character list of a string (text.lower() in the source). -/
def lowerChars (s : String) : List Char := s.data.map Char.toLower

/-- Stable insertion: x is placed before the first element y with
before x y; ties in the underlying key keep earlier-inserted elements
of the original list in front. -/
def stableInsert (before : α → α → Bool) (x : α) : List α → List α
  | [] => [x]
  | y :: ys => if before x y then x :: y :: ys else y :: stableInsert before x ys

/-- Stable sort by repeated insertion, mirroring the stability guarantee of
Python sorted and list.sort. -/
def stableSort (before : α → α → Bool) (l : List α) : List α :=
  l.foldr (stableInsert before) []

/-! ## Pramana classifier (pramana_classifier.py) -/

/-- The four pramana categories, in declaration order of the source dict. -/
inductive Pramana where
  | pratyaksha
  | anumana
  | sabda
  | upamana
deriving DecidableEq

/-- Display name of a pramana category (the dict key string). -/
def pramanaName : Pramana → String
  | .pratyaksha => "pratyaksha"
  | .anumana => "anumana"
  | .sabda => "sabda"
  | .upamana => "upamana"

/-- The pramana_patterns table, groups expanded to explicit alternatives in
the backtracking order of the Python regex engine. -/
def pramana_patterns : List (Pramana × List Pat) :=
  [(.pratyaksha,
    [.alts ["i see", "i saw", "i witness", "i observe", "i watch", "i experience"],
     .alts ["i have seen", "i have witnessed", "i have observed", "i have experienced"],
     .alts ["in my experience"],
     .alts ["firsthand"],
     .alts ["i was there"],
     .alts ["with my own eyes"]]),
   (.anumana,
    [.alts ["therefore"],
     .alts ["thus"],
     .alts ["hence"],
     .alts ["consequently"],
     .alts ["it follows that"],
     .alts ["we can infer"],
     .alts ["this implies"],
     .wild "if " " then",
     .wild "because " " must"]),
   (.sabda,
    [.alts ["studies show"],
     .alts ["research shows", "research indicates", "research proves"],
     .alts ["experts say"],
     .alts ["according to"],
     .alts ["data shows", "data indicates"],
     .alts ["evidence suggests"],
     .alts ["scientists agree", "scientists found"],
     .alts ["the literature"]]),
   (.upamana,
    [.alts ["like"],
     .alts ["similar to"],
     .alts ["just as"],
     .alts ["analogous to"],
     .alts ["compare to"],
     .alts ["resembles"],
     .alts ["in the same way"]])]

/-- Number of non-overlapping matches of one pattern (re.findall length). -/
def patCount (s : List Char) (pat : Pat) : Nat :=
  (scanMatches s (fun p => patMatchAt s p pat)).length

/-- Result record of classify_pramana. -/
structure PramanaResult where
  dominant_pramana : Pramana
  scores : List (Pramana × Nat)
  confidence : ℚ
deriving DecidableEq

/-- Score lookup in the scores association list, 0 when absent. -/
def lookupScore (l : List (Pramana × Nat)) (k : Pramana) : Nat :=
  ((l.find? fun p => p.1 == k).map fun p => p.2).getD 0

/-- Python max over dict keys with key=scores.get: the first key in
insertion order achieving the maximal score (replace only on strictly
greater). -/
def maxKey : List (Pramana × Nat) → Pramana
  | [] => .pratyaksha
  | kv :: rest =>
    (rest.foldl (fun best p => if p.2 > best.2 then p else best) kv).1

/-- The per-category match counts of classify_pramana. -/
def pramanaScores (text : String) : List (Pramana × Nat) :=
  pramana_patterns.map fun pr => (pr.1, (pr.2.map (patCount (lowerChars text))).sum)

/-- Embedding of PramanaClassifier.classify_pramana. -/
def classify_pramana (text : String) : PramanaResult :=
  let scores := pramanaScores text
  let total : Nat := (scores.map fun p => p.2).sum
  let dominant := if total = 0 then Pramana.pratyaksha else maxKey scores
  { dominant_pramana := dominant
    scores := scores
    confidence := (lookupScore scores dominant : ℚ) / ((max total 1 : Nat) : ℚ) }

/-! ## Value extractor (value_extractor.py) -/

/-- The value_keywords taxonomy, in declaration order. -/
def value_keywords : List (String × List String) :=
  [("justice_and_fairness",
    ["justice", "fair", "fairness", "equal", "equality", "rights",
     "deserve", "ought", "should", "moral", "ethical", "unjust"]),
   ("health_and_wellbeing",
    ["health", "wellbeing", "wellness", "care", "medical", "hospital",
     "patient", "illness", "disease", "treatment", "safety"]),
   ("economic_security",
    ["job", "employment", "economy", "economic", "business", "income",
     "financial", "money", "wage", "salary", "afford", "cost"]),
   ("family_protection",
    ["family", "children", "kids", "parents", "home", "household",
     "father", "mother", "son", "daughter", "protect"]),
   ("community_wellbeing",
    ["community", "society", "neighbor", "local", "town", "city",
     "people", "citizens", "public", "collective"]),
   ("progress_and_innovation",
    ["innovation", "progress", "technology", "future", "advance",
     "develop", "improve", "growth", "modern", "new"]),
   ("freedom_and_autonomy",
    ["freedom", "liberty", "choice", "autonomy", "independent",
     "free", "choose", "decide", "control"])]

/-- Number of whole-word, suffix-extended matches of one keyword. -/
def kwCount (s : List Char) (kw : String) : Nat :=
  (scanMatches s (fun p => kwMatchAt s p kw.data)).length

/-- Result record of extract_values. -/
structure ValueResult where
  top_values : List String
  scores : List (String × Nat)
deriving DecidableEq

/-- Descending-by-score comparison used for the stable sort of scores. -/
def scoreBefore (a b : String × Nat) : Bool := b.2 ≤ a.2

/-- The per-tag keyword counts of extract_values. -/
def valueScores (text : String) : List (String × Nat) :=
  value_keywords.map fun vk => (vk.1, (vk.2.map (kwCount (lowerChars text))).sum)

/-- Embedding of ValueExtractor.extract_values. -/
def extract_values (text : String) : ValueResult :=
  let scores := valueScores text
  let sorted := stableSort scoreBefore scores
  { top_values := ((sorted.filter fun p => 0 < p.2).map fun p => p.1).take 5
    scores := scores }

/-- Score of one value tag in a ValueResult (scores[entry] in the spec). -/
def scoreOf (r : ValueResult) (v : String) : Nat :=
  ((r.scores.find? fun p => p.1 == v).map fun p => p.2).getD 0

/-! ## Tarka engine (tarka_engine.py) -/

/-- The four reasoning marker categories, in declaration order. -/
inductive RType where
  | premise
  | inference
  | evidence
  | conclusion
deriving DecidableEq

/-- The reasoning_patterns table, groups expanded to explicit alternatives. -/
def reasoning_patterns : List (RType × List Pat) :=
  [(.premise,
    [.alts ["because", "since", "given that", "as"],
     .alts ["the fact that", "the fact is"]]),
   (.inference,
    [.alts ["therefore", "thus", "hence", "consequently"],
     .alts ["it follows that"],
     .alts ["this means", "this implies"]]),
   (.evidence,
    [.alts ["studies show", "studies suggest", "studies indicate",
            "research show", "research suggest", "research indicate",
            "data show", "data suggest", "data indicate",
            "evidence show", "evidence suggest", "evidence indicate"],
     .alts ["according to"]]),
   (.conclusion,
    [.alts ["in conclusion", "ultimately", "finally"],
     .alts ["we must", "we should", "we need to"]])]

/-- One entry of a reasoning chain. -/
structure ChainEntry where
  type : RType
  position : Nat
  text : String
deriving DecidableEq

/-- Result record of analyze_reasoning. -/
structure ReasoningResult where
  chain : List ChainEntry
  has_logical_structure : Bool
deriving DecidableEq

/-- Ascending-by-position comparison used for the stable chain sort. -/
def posBefore (a b : ChainEntry) : Bool := a.position ≤ b.position

/-- Embedding of TarkaEngine.analyze_reasoning. -/
def analyze_reasoning (text : String) : ReasoningResult :=
  let s := lowerChars text
  let raw := reasoning_patterns.foldl
    (fun acc tp =>
      tp.2.foldl
        (fun acc2 pat =>
          acc2 ++ (scanMatches s (fun p => patMatchAt s p pat)).map fun m =>
            { type := tp.1, position := m.1, text := String.mk ((s.drop m.1).take m.2) })
        acc)
    []
  let chain := stableSort posBefore raw
  { chain := chain
    has_logical_structure := decide (0 < chain.length) }

/-! ## Hidden agreement detector (hidden_agreement_detector.py) -/

/-- Per-speaker analysis record, as assembled by SAMVADAnalyzer. -/
structure Analysis where
  pramana : PramanaResult
  values : ValueResult
  reasoning : ReasoningResult
  text : String
deriving DecidableEq

/-- One detected agreement between a pair of speakers. -/
structure Agreement where
  person_a : String
  person_b : String
  shared_values : List String
  agreement_strength : ℚ
  pramana_similarity : ℚ
  reasoning_compatibility : ℚ
  dialogue_insight : String
deriving DecidableEq

/-- The agreement_threshold attribute of the detector. -/
def agreement_threshold : ℚ := 1/10

/-- Append an element if it is not already present (insertion-order model
of adding to a Python set). -/
def addIfAbsent (x : String) (l : List String) : List String :=
  if x ∈ l then l else l ++ [x]

/-- The related_values expansion table of find_shared_values.  The entry
for justice_and_fairness names two labels that occur nowhere in the value
taxonomy, so it can never fire. -/
def related_values : List (String × List String) :=
  [("health_and_wellbeing", ["family_protection", "community_wellbeing"]),
   ("economic_security", ["family_protection", "community_wellbeing"]),
   ("justice_and_fairness", ["human_dignity", "equality"]),
   ("community_wellbeing", ["family_protection", "health_and_wellbeing"]),
   ("family_protection", ["health_and_wellbeing", "economic_security"])]

/-- related_values.get(v, []) in the source. -/
def relGet (v : String) : List String :=
  ((related_values.find? fun p => p.1 == v).map fun p => p.2).getD []

/-- The relatedness test of the expansion loop. -/
def relatedB (a b : String) : Bool := a ∈ relGet b || b ∈ relGet a

/-- Inner loop of the related-value expansion: one value of speaker a
against every value of speaker b, appending both endpoints of a related
pair when absent. -/
def relInner (valA : String) (vb : List String) (shared : List String) : List String :=
  match vb with
  | [] => shared
  | valB :: rest =>
    relInner valA rest
      (if relatedB valA valB then addIfAbsent valB (addIfAbsent valA shared) else shared)

/-- Outer loop of the related-value expansion over the values of speaker a. -/
def relExpand (va vb : List String) (shared : List String) : List String :=
  match va with
  | [] => shared
  | valA :: rest => relExpand rest vb (relInner valA vb shared)

/-- The shared list before the 5-entry cap: direct overlap (set
intersection, modelled in first-operand order) then the expansion loop. -/
def sharedUncapped (va vb : List String) : List String :=
  relExpand va vb (va.filter fun v => v ∈ vb)

/-- Embedding of HiddenAgreementDetector.find_shared_values. -/
def find_shared_values (a b : Analysis) : List String :=
  (sharedUncapped a.values.top_values b.values.top_values).take 5

/-- Pairwise pramana comparison on dominant categories.  In the source a
missing dominant_pramana key would yield 0.3, but every analysis built by
the pipeline carries one, so the category-level comparison is total here. -/
def comparePramanaCat (a b : Pramana) : ℚ :=
  if a = b then 9/10
  else if (a = .pratyaksha ∧ b = .anumana) ∨ (a = .anumana ∧ b = .pratyaksha)
       ∨ (a = .sabda ∧ b = .anumana) ∨ (a = .anumana ∧ b = .sabda)
       ∨ (a = .pratyaksha ∧ b = .sabda) ∨ (a = .sabda ∧ b = .pratyaksha) then 6/10
  else 3/10

/-- Embedding of HiddenAgreementDetector.compare_pramana. -/
def compare_pramana (a b : Analysis) : ℚ :=
  comparePramanaCat a.pramana.dominant_pramana b.pramana.dominant_pramana

/-- Embedding of HiddenAgreementDetector.compare_reasoning. -/
def compare_reasoning (a b : Analysis) : ℚ :=
  if 0 < a.reasoning.chain.length ∧ 0 < b.reasoning.chain.length then 7/10
  else if 0 < a.reasoning.chain.length ∨ 0 < b.reasoning.chain.length then 2/5
  else 1/5

/-- Embedding of HiddenAgreementDetector.calculate_agreement_strength. -/
def calculate_agreement_strength
    (shared_values : List String) (pramana_similarity reasoning_compatibility : ℚ) : ℚ :=
  let value_score := min ((shared_values.length : ℚ) / 3) 1
  value_score * (6/10) + pramana_similarity * (25/100) + reasoning_compatibility * (15/100)

/-- Humanised value tag: underscores replaced by spaces. -/
def humanize (v : String) : String := v.replace "_" " "

/-- The singular / pair / list-with-and rendering of the shared values. -/
def valuesStr (shared : List String) : String :=
  match shared with
  | [] => ""
  | [v] => humanize v
  | [v, w] => humanize v ++ " and " ++ humanize w
  | _ => String.intercalate ", " (shared.dropLast.map humanize)
         ++ ", and " ++ humanize (shared.getLastD "")

/-- Embedding of HiddenAgreementDetector.generate_insight. -/
def generate_insight (person_a person_b : String) (shared_values : List String)
    (a b : Analysis) (pramana_similarity : ℚ) : String :=
  let pa := pramanaName a.pramana.dominant_pramana
  let pb := pramanaName b.pramana.dominant_pramana
  match shared_values with
  | [] =>
    "While " ++ person_a ++ " and " ++ person_b ++ " may disagree on policy, "
      ++ "they use similar epistemological approaches (" ++ pa ++ " and " ++ pb ++ "). "
      ++ "This suggests potential for productive dialogue if they can identify shared goals."
  | v0 :: _ =>
    let pramanaInsight :=
      if (7:ℚ)/10 < pramana_similarity then
        "Both primarily use " ++ pa ++ " (same way of knowing), "
          ++ "so disagreement likely stems from different interpretations or priorities, not fundamental epistemology."
      else
        person_a ++ " relies on " ++ pa ++ " while " ++ person_b ++ " uses " ++ pb ++ ". "
          ++ "Bridging this gap could help them find common ground despite different reasoning approaches."
    "Both people value " ++ valuesStr shared_values ++ ", but reach different conclusions. "
      ++ pramanaInsight ++ " "
      ++ "A mediator could highlight their shared concern for " ++ humanize v0 ++ " "
      ++ "to build consensus on specific action steps."

/-- All unordered pairs of a list in enumeration order of
itertools.combinations. -/
def pairsOf : List α → List (α × α)
  | [] => []
  | x :: xs => (xs.map fun y => (x, y)) ++ pairsOf xs

/-- The agreement built for one pair, or none when the inclusion rule
rejects it. -/
def agreementFor (pa : String × Analysis) (pb : String × Analysis) : Option Agreement :=
  let shared := find_shared_values pa.2 pb.2
  let ps := compare_pramana pa.2 pb.2
  let rc := compare_reasoning pa.2 pb.2
  let strength := calculate_agreement_strength shared ps rc
  if agreement_threshold < strength ∨ 0 < shared.length then
    some
      { person_a := pa.1
        person_b := pb.1
        shared_values := shared
        agreement_strength := strength
        pramana_similarity := ps
        reasoning_compatibility := rc
        dialogue_insight := generate_insight pa.1 pb.1 shared pa.2 pb.2 ps }
  else none

/-- Descending-by-strength comparison used for the stable agreement sort. -/
def strengthBefore (x y : Agreement) : Bool := y.agreement_strength ≤ x.agreement_strength

/-- Embedding of HiddenAgreementDetector.detect_agreements; the analyses
dictionary is an association list in insertion order. -/
def detect_agreements (analyses : List (String × Analysis)) : List Agreement :=
  stableSort strengthBefore
    ((pairsOf analyses).filterMap fun pq => agreementFor pq.1 pq.2)

/-- The fixed fallback recommendations for an empty agreement list. -/
def fallback_recs : List String :=
  ["No clear hidden agreements detected. Focus on establishing common ground.",
   "Try identifying shared experiences or concerns as a starting point.",
   "Consider using a neutral facilitator to explore potential areas of agreement."]

/-- The epistemology-based recommendation, parameterised by the number of
pairs with high pramana similarity. -/
def pramana_rec (n : Nat) : String :=
  toString n ++ " speaker pair(s) use similar reasoning methods. "
    ++ "They may disagree on conclusions but share epistemological common ground."

/-- Union of the shared values of all agreements, in first-encountered
order (insertion-order model of the accumulated Python set). -/
def allSharedValues (agreements : List Agreement) : List String :=
  agreements.foldl (fun acc ag => ag.shared_values.foldl (fun a v => addIfAbsent v a) acc) []

/-- The epistemology-based recommendation block: present exactly when at
least one agreement has pramana similarity above 0.6. -/
def pramana_rec_block (agreements : List Agreement) : List String :=
  let high := agreements.filter fun a => (6:ℚ)/10 < a.pramana_similarity
  if 0 < high.length then [pramana_rec high.length] else []

/-- Embedding of
HiddenAgreementDetector.generate_dialogue_recommendations. -/
def generate_dialogue_recommendations (agreements : List Agreement) : List String :=
  match agreements with
  | [] => fallback_recs
  | strongest :: _ =>
    let rec1 :=
      if (6:ℚ)/10 < strongest.agreement_strength then
        ["Strong agreement detected between " ++ strongest.person_a ++ " and "
          ++ strongest.person_b ++ ". "
          ++ "Build on their shared values: "
          ++ String.intercalate ", " (strongest.shared_values.take 2) ++ "."]
      else []
    let rec2 :=
      if 3 ≤ (allSharedValues agreements).length then
        ["Multiple shared values detected across speakers: "
          ++ String.intercalate ", " ((allSharedValues agreements).take 3) ++ ". "
          ++ "Frame discussion around these common concerns."]
      else []
    let rec3 := pramana_rec_block agreements
    let rec4 :=
      if 3 < agreements.length then
        ["Multiple hidden agreements suggest this group has more common ground than apparent. "
          ++ "Focus dialogue on shared values to find compromise solutions."]
      else []
    rec1 ++ rec2 ++ rec3 ++ rec4

/-! ## Unified analyzer (samvad_analyzer.py) -/

/-- One submitted narrative. -/
structure Narrative where
  speaker : String
  text : String
  position : String
deriving DecidableEq

/-- Result record of analyze_dialogue. -/
structure AnalysisResult where
  individual_analyses : List (String × Analysis)
  hidden_agreements : List Agreement
  narratives : List Narrative
deriving DecidableEq

/-- The per-speaker profile assembled inside analyze_dialogue. -/
def mkAnalysis (text : String) : Analysis :=
  { pramana := classify_pramana text
    values := extract_values text
    reasoning := analyze_reasoning text
    text := text }

/-- Insertion into a Python dict modelled as an association list: an
existing key is updated in place, a new key is appended. -/
def dictInsert (k : String) (v : Analysis) : List (String × Analysis) → List (String × Analysis)
  | [] => [(k, v)]
  | kv :: rest => if kv.1 == k then (k, v) :: rest else kv :: dictInsert k v rest

/-- The individual_analyses dictionary built by analyze_dialogue. -/
def buildAnalyses (narratives : List Narrative) : List (String × Analysis) :=
  narratives.foldl (fun acc nar => dictInsert nar.speaker (mkAnalysis nar.text) acc) []

/-- Embedding of SAMVADAnalyzer.analyze_dialogue.  The source performs no
validation of any kind: it builds the per-speaker analyses, runs the
detector and returns; there is no raise statement on any path. -/
def analyze_dialogue (narratives : List Narrative) : AnalysisResult :=
  let ia := buildAnalyses narratives
  { individual_analyses := ia
    hidden_agreements := detect_agreements ia
    narratives := narratives }

/-- A line of n repeated characters ("="*60 and "-"*60 in the source). -/
def lineOf (c : Char) (n : Nat) : String := String.mk (List.replicate n c)

/-- Round half to even, as Python string formatting does. -/
def roundHalfEven (q : ℚ) : Int :=
  let f := Int.floor q
  let r := q - f
  if r < 1/2 then f else if 1/2 < r then f + 1 else if f % 2 = 0 then f else f + 1

/-- Percentage rendering of a strength value (the :.0% format). -/
def formatPercent (q : ℚ) : String := toString (roundHalfEven (q * 100)) ++ "%"

/-- The per-speaker section lines of the report. -/
def speakerLines (narratives : List Narrative) (sp : String × Analysis) : List String :=
  let position := ((narratives.find? fun nar => nar.speaker == sp.1).map
    fun nar => nar.position).getD "N/A"
  [sp.1 ++ ":",
   "  Position: " ++ position,
   "  Knowledge Source: " ++ pramanaName sp.2.pramana.dominant_pramana,
   if sp.2.values.top_values.isEmpty then "  Top Values: "
   else "  Top Values: " ++ String.intercalate ", " (sp.2.values.top_values.take 3),
   ""]

/-- The lines describing one agreement in the report. -/
def agreementLines (iag : Nat × Agreement) : List String :=
  ["Agreement #" ++ toString iag.1 ++ ":",
   "  Between: " ++ iag.2.person_a ++ " ↔ " ++ iag.2.person_b,
   "  Shared Values: " ++
     (if iag.2.shared_values.isEmpty then "None explicit"
      else String.intercalate ", " iag.2.shared_values),
   "  Agreement Strength: " ++ formatPercent iag.2.agreement_strength,
   "  Insight: " ++ iag.2.dialogue_insight,
   ""]

/-- Embedding of SAMVADAnalyzer.generate_report. -/
def generate_report (results : AnalysisResult) : String :=
  let numSpeakers := results.narratives.length
  let numAgreements := results.hidden_agreements.length
  let header :=
    [lineOf '=' 60, "SAMVAD DIALOGUE ANALYSIS REPORT", lineOf '=' 60, "",
     "Total Speakers: " ++ toString numSpeakers,
     "Hidden Agreements Found: " ++ toString numAgreements,
     "Dialogue Connections: " ++ toString (numSpeakers * (numSpeakers - 1) / 2), "",
     "INDIVIDUAL NARRATIVE ANALYSIS", lineOf '-' 60, ""]
  let speakerSection :=
    results.individual_analyses.foldl (fun acc sp => acc ++ speakerLines results.narratives sp) []
  let agreementSection :=
    if results.hidden_agreements.isEmpty then []
    else ["", "HIDDEN AGREEMENTS DETECTED", lineOf '-' 60, ""] ++
      (results.hidden_agreements.enumFrom 1).foldl (fun acc iag => acc ++ agreementLines iag) []
  let recommendations := generate_dialogue_recommendations results.hidden_agreements
  let recSection :=
    ["", "DIALOGUE RECOMMENDATIONS", lineOf '-' 60, ""] ++
    (recommendations.enumFrom 1).map (fun ir => toString ir.1 ++ ". " ++ ir.2) ++
    ["", lineOf '=' 60, "End of Report", lineOf '=' 60]
  String.intercalate "\n" (header ++ speakerSection ++ agreementSection ++ recSection)

/-! ## Auxiliary notions used by the stated properties -/

/-- Position of a value tag in the taxonomy declaration order. -/
def declIdx (v : String) : Nat := (value_keywords.map fun p => p.1).indexOf v

/-- Sum of all category counts of a pramana result. -/
def scoresSum (r : PramanaResult) : Nat := (r.scores.map fun p => p.2).sum

/-- The text of the C2 scenario. -/
def c2text : String := "Studies show exercise helps. Therefore we should act."

/-- A single-narrative input used against the C1 validation claim. -/
def soloNarrative : Narrative :=
  { speaker := "Solo", text := "I was there.", position := "solo position" }

/-- Two speakers with the same dominant pramana and no shared values:
input of the C3 counterexample. -/
def c3analyses : List (String × Analysis) :=
  [("A", mkAnalysis "I was there."),
   ("B", mkAnalysis "In my experience it depends.")]

/-- The single agreement list of the C3 counterexample. -/
def c3ags : List Agreement := detect_agreements c3analyses

/-- First speaker of the C4 counterexample. -/
def c4narA : Narrative :=
  { speaker := "A"
    text := "justice justice innovation innovation freedom health community"
    position := "pa" }

/-- Second speaker of the C4 counterexample. -/
def c4narB : Narrative :=
  { speaker := "B"
    text := "justice justice innovation innovation freedom job family"
    position := "pb" }

/-! ## General lemmas about the list machinery -/

theorem length_stableInsert (before : α → α → Bool) (x : α) (l : List α) :
    (stableInsert before x l).length = l.length + 1 := by
  induction l with
  | nil => rfl
  | cons y ys ih =>
    simp only [stableInsert]
    split
    · simp
    · simp [ih]

theorem mem_stableInsert (before : α → α → Bool) (x : α) (l : List α) (z : α) :
    z ∈ stableInsert before x l ↔ z = x ∨ z ∈ l := by
  induction l with
  | nil => simp [stableInsert]
  | cons y ys ih =>
    simp only [stableInsert]
    split
    · simp [or_comm, or_left_comm, List.mem_cons]
    · simp only [List.mem_cons, ih]
      tauto

theorem length_stableSort (before : α → α → Bool) (l : List α) :
    (stableSort before l).length = l.length := by
  induction l with
  | nil => rfl
  | cons y ys ih =>
    simp only [stableSort, List.foldr] at *
    rw [length_stableInsert, ih]
    simp

theorem mem_stableSort (before : α → α → Bool) (l : List α) (z : α) :
    z ∈ stableSort before l ↔ z ∈ l := by
  induction l with
  | nil => simp [stableSort]
  | cons y ys ih =>
    simp only [stableSort, List.foldr] at *
    rw [mem_stableInsert]
    simp [ih]

theorem pairwise_stableInsert (before : α → α → Bool)
    (htot : ∀ x y, before x y = true ∨ before y x = true)
    (htrans : ∀ x y z, before x y = true → before y z = true → before x z = true)
    (x : α) : ∀ l : List α, (l.Pairwise fun a b => before a b = true) →
    (stableInsert before x l).Pairwise fun a b => before a b = true := by
  intro l
  induction l with
  | nil =>
    intro _
    simp [stableInsert]
  | cons y ys ih =>
    intro h
    rcases List.pairwise_cons.mp h with ⟨hy, hys⟩
    simp only [stableInsert]
    cases hxy : before x y with
    | true =>
      simp only [if_pos]
      refine List.pairwise_cons.mpr ⟨?_, h⟩
      intro z hz
      rcases List.mem_cons.mp hz with rfl | hz2
      · exact hxy
      · exact htrans x y z hxy (hy z hz2)
    | false =>
      simp only [Bool.false_eq_true, if_false]
      refine List.pairwise_cons.mpr ⟨?_, ih hys⟩
      intro z hz
      rcases (mem_stableInsert before x ys z).mp hz with rfl | hz2
      · rcases htot z y with hxy2 | hyx
        · rw [hxy2] at hxy
          exact absurd hxy (by simp)
        · exact hyx
      · exact hy z hz2

theorem pairwise_stableSort (before : α → α → Bool)
    (htot : ∀ x y, before x y = true ∨ before y x = true)
    (htrans : ∀ x y z, before x y = true → before y z = true → before x z = true)
    (l : List α) :
    (stableSort before l).Pairwise fun a b => before a b = true := by
  induction l with
  | nil => simp [stableSort]
  | cons y ys ih =>
    simp only [stableSort, List.foldr] at *
    exact pairwise_stableInsert before htot htrans y _ ih

theorem length_filterMap_of_isSome (f : α → Option β) (l : List α)
    (h : ∀ x ∈ l, (f x).isSome) :
    (l.filterMap f).length = l.length := by
  induction l with
  | nil => rfl
  | cons y ys ih =>
    have hy := h y (List.mem_cons_self y ys)
    rcases Option.isSome_iff_exists.mp hy with ⟨b, hb⟩
    rw [List.filterMap_cons, hb]
    simp only [List.length_cons]
    rw [ih fun x hx => h x (List.mem_cons_of_mem y hx)]

theorem two_mul_length_pairsOf (l : List α) :
    2 * (pairsOf l).length = l.length * (l.length - 1) := by
  induction l with
  | nil => rfl
  | cons y ys ih =>
    simp only [pairsOf, List.length_append, List.length_map, List.length_cons]
    cases ys with
    | nil => simp [pairsOf]
    | cons z zs =>
      simp only [List.length_cons, Nat.add_sub_cancel] at ih ⊢
      calc 2 * (zs.length + 1 + (pairsOf (z :: zs)).length)
          = 2 * (zs.length + 1) + 2 * (pairsOf (z :: zs)).length := by ring
        _ = 2 * (zs.length + 1) + (zs.length + 1) * zs.length := by rw [ih]
        _ = (zs.length + 1 + 1) * (zs.length + 1) := by ring

theorem length_pairsOf (l : List α) :
    (pairsOf l).length = l.length * (l.length - 1) / 2 := by
  have h := two_mul_length_pairsOf l
  generalize hk : l.length * (l.length - 1) = k at h ⊢
  omega

theorem find?_eq_of_nodup_keys (l : List (String × Nat)) (v : String) (s : Nat)
    (hnd : (l.map fun p => p.1).Nodup) (hmem : (v, s) ∈ l) :
    (l.find? fun p => p.1 == v) = some (v, s) := by
  induction l with
  | nil => simp at hmem
  | cons y ys ih =>
    rcases List.mem_cons.mp hmem with rfl | hmem2
    · simp [List.find?]
    · have hnd2 := hnd
      simp only [List.map_cons, List.nodup_cons] at hnd2
      have hne : ¬(y.1 == v) = true := by
        intro hcontra
        have : y.1 = v := by simpa using hcontra
        exact hnd2.1 (this ▸ List.mem_map_of_mem (fun p => p.1) hmem2)
      rw [List.find?]
      simp only [hne]
      exact ih hnd2.2 hmem2

/-! ## Lemmas about the agreement detector -/

theorem mem_addIfAbsent (x : String) (l : List String) (z : String) :
    z ∈ addIfAbsent x l ↔ z = x ∨ z ∈ l := by
  unfold addIfAbsent
  split
  · rename_i hx
    constructor
    · exact fun h => Or.inr h
    · rintro (rfl | h)
      · exact hx
      · exact h
  · simp [or_comm]

theorem mem_relInner (valA : String) (vb shared : List String) (z : String) :
    z ∈ relInner valA vb shared ↔
      z ∈ shared ∨ ∃ b ∈ vb, relatedB valA b = true ∧ (z = valA ∨ z = b) := by
  induction vb generalizing shared with
  | nil => simp [relInner]
  | cons valB rest ih =>
    simp only [relInner]
    rw [ih]
    by_cases hrel : relatedB valA valB = true
    · simp only [hrel, if_pos]
      rw [mem_addIfAbsent, mem_addIfAbsent]
      constructor
      · rintro ((hzB | hzA | hz) | ⟨b, hb, hrb, hzb⟩)
        · exact Or.inr ⟨valB, List.mem_cons_self _ _, hrel, Or.inr hzB⟩
        · exact Or.inr ⟨valB, List.mem_cons_self _ _, hrel, Or.inl hzA⟩
        · exact Or.inl hz
        · exact Or.inr ⟨b, List.mem_cons_of_mem _ hb, hrb, hzb⟩
      · rintro (hz | ⟨b, hb, hrb, hzb⟩)
        · exact Or.inl (Or.inr (Or.inr hz))
        · rcases List.mem_cons.mp hb with hbB | hb2
          · rcases hzb with hza | hzb2
            · exact Or.inl (Or.inr (Or.inl hza))
            · exact Or.inl (Or.inl (hbB ▸ hzb2))
          · exact Or.inr ⟨b, hb2, hrb, hzb⟩
    · simp only [hrel, if_neg, if_false]
      constructor
      · rintro (hz | ⟨b, hb, hrb, hzb⟩)
        · exact Or.inl hz
        · exact Or.inr ⟨b, List.mem_cons_of_mem _ hb, hrb, hzb⟩
      · rintro (hz | ⟨b, hb, hrb, hzb⟩)
        · exact Or.inl hz
        · rcases List.mem_cons.mp hb with rfl | hb2
          · exact absurd hrb hrel
          · exact Or.inr ⟨b, hb2, hrb, hzb⟩

theorem mem_relExpand (va vb shared : List String) (z : String) :
    z ∈ relExpand va vb shared ↔
      z ∈ shared ∨ ∃ a ∈ va, ∃ b ∈ vb, relatedB a b = true ∧ (z = a ∨ z = b) := by
  induction va generalizing shared with
  | nil => simp [relExpand]
  | cons valA rest ih =>
    simp only [relExpand]
    rw [ih, mem_relInner]
    constructor
    · rintro ((hz | ⟨b, hb, hrb, hzb⟩) | ⟨a, ha, b, hb, hrb, hzb⟩)
      · exact Or.inl hz
      · exact Or.inr ⟨valA, List.mem_cons_self _ _, b, hb, hrb, hzb⟩
      · exact Or.inr ⟨a, List.mem_cons_of_mem _ ha, b, hb, hrb, hzb⟩
    · rintro (hz | ⟨a, ha, b, hb, hrb, hzb⟩)
      · exact Or.inl (Or.inl hz)
      · rcases List.mem_cons.mp ha with rfl | ha2
        · exact Or.inl (Or.inr ⟨b, hb, hrb, hzb⟩)
        · exact Or.inr ⟨a, ha2, b, hb, hrb, hzb⟩

theorem relatedB_symm (a b : String) : relatedB a b = relatedB b a := by
  unfold relatedB
  exact Bool.or_comm _ _

theorem mem_sharedUncapped (va vb : List String) (z : String) :
    z ∈ sharedUncapped va vb ↔
      (z ∈ va ∧ z ∈ vb) ∨ ∃ a ∈ va, ∃ b ∈ vb, relatedB a b = true ∧ (z = a ∨ z = b) := by
  unfold sharedUncapped
  rw [mem_relExpand]
  simp [List.mem_filter, and_comm]

theorem mem_sharedUncapped_symm (va vb : List String) (z : String) :
    z ∈ sharedUncapped va vb ↔ z ∈ sharedUncapped vb va := by
  rw [mem_sharedUncapped, mem_sharedUncapped]
  constructor
  · rintro (⟨h1, h2⟩ | ⟨a, ha, b, hb, hrb, hzb⟩)
    · exact Or.inl ⟨h2, h1⟩
    · exact Or.inr ⟨b, hb, a, ha, by rw [relatedB_symm]; exact hrb, hzb.symm⟩
  · rintro (⟨h1, h2⟩ | ⟨a, ha, b, hb, hrb, hzb⟩)
    · exact Or.inl ⟨h2, h1⟩
    · exact Or.inr ⟨b, hb, a, ha, by rw [relatedB_symm]; exact hrb, hzb.symm⟩

theorem comparePramanaCat_symm (a b : Pramana) : comparePramanaCat a b = comparePramanaCat b a := by
  cases a <;> cases b <;> rfl

theorem compare_pramana_symm (a b : Analysis) : compare_pramana a b = compare_pramana b a :=
  comparePramanaCat_symm _ _

theorem compare_reasoning_symm (a b : Analysis) : compare_reasoning a b = compare_reasoning b a := by
  unfold compare_reasoning
  by_cases ha : 0 < a.reasoning.chain.length <;>
    by_cases hb : 0 < b.reasoning.chain.length <;>
      simp [ha, hb]

theorem comparePramanaCat_ge (a b : Pramana) : 3/10 ≤ comparePramanaCat a b := by
  cases a <;> cases b <;> with_unfolding_all decide

theorem compare_reasoning_ge (a b : Analysis) : 1/5 ≤ compare_reasoning a b := by
  unfold compare_reasoning
  by_cases ha : 0 < a.reasoning.chain.length <;>
    by_cases hb : 0 < b.reasoning.chain.length <;>
      simp [ha, hb] <;> norm_num

theorem calculate_agreement_strength_ge (shared : List String) (ps rc : ℚ)
    (hps : 3/10 ≤ ps) (hrc : 1/5 ≤ rc) :
    21/200 ≤ calculate_agreement_strength shared ps rc := by
  unfold calculate_agreement_strength
  have hv : (0:ℚ) ≤ min ((shared.length : ℚ) / 3) 1 := by
    apply le_min
    · positivity
    · norm_num
  nlinarith

theorem agreementFor_isSome (pa pb : String × Analysis) : (agreementFor pa pb).isSome := by
  unfold agreementFor
  have hps := comparePramanaCat_ge pa.2.pramana.dominant_pramana pb.2.pramana.dominant_pramana
  have hrc := compare_reasoning_ge pa.2 pb.2
  have h := calculate_agreement_strength_ge (find_shared_values pa.2 pb.2)
    (compare_pramana pa.2 pb.2) (compare_reasoning pa.2 pb.2) hps hrc
  have hgt : agreement_threshold <
      calculate_agreement_strength (find_shared_values pa.2 pb.2)
        (compare_pramana pa.2 pb.2) (compare_reasoning pa.2 pb.2) := by
    have : (1:ℚ)/10 < 21/200 := by norm_num
    calc agreement_threshold = 1/10 := rfl
      _ < 21/200 := this
      _ ≤ _ := h
  rw [if_pos (Or.inl hgt)]
  rfl

theorem strength_of_mem_detect (analyses : List (String × Analysis)) (ag : Agreement)
    (h : ag ∈ detect_agreements analyses) : 21/200 ≤ ag.agreement_strength := by
  unfold detect_agreements at h
  rw [mem_stableSort] at h
  rcases List.mem_filterMap.mp h with ⟨pq, _, hag⟩
  simp only [agreementFor] at hag
  have hps := comparePramanaCat_ge pq.1.2.pramana.dominant_pramana pq.2.2.pramana.dominant_pramana
  have hrc := compare_reasoning_ge pq.1.2 pq.2.2
  have hb := calculate_agreement_strength_ge (find_shared_values pq.1.2 pq.2.2)
    (compare_pramana pq.1.2 pq.2.2) (compare_reasoning pq.1.2 pq.2.2) hps hrc
  split at hag
  · cases hag
    exact hb
  · cases hag

/-! ## Lemmas about the analyzer dictionary -/

theorem map_fst_dictInsert_of_mem (k : String) (v : Analysis)
    (acc : List (String × Analysis)) (h : k ∈ acc.map fun p => p.1) :
    (dictInsert k v acc).map (fun p => p.1) = acc.map fun p => p.1 := by
  induction acc with
  | nil => simp at h
  | cons y ys ih =>
    simp only [dictInsert]
    by_cases hk : (y.1 == k) = true
    · simp only [hk, if_pos, List.map_cons]
      have : y.1 = k := by simpa using hk
      rw [this]
    · have hkf : (y.1 == k) = false := by simpa using hk
      have hne : y.1 ≠ k := by simpa using hk
      have h2 : k ∈ ys.map fun p => p.1 := by
        rw [List.map_cons] at h
        rcases List.mem_cons.mp h with hk2 | h2
        · exact absurd hk2.symm hne
        · exact h2
      simp only [hkf, Bool.false_eq_true, if_false, List.map_cons]
      rw [ih h2]

theorem foldl_dictInsert_keys (l : List Narrative) (acc : List (String × Analysis))
    (h : ∀ n ∈ l, n.speaker ∈ acc.map fun p => p.1) :
    ((l.foldl (fun acc2 nar => dictInsert nar.speaker (mkAnalysis nar.text) acc2) acc).map
      fun p => p.1) = acc.map fun p => p.1 := by
  induction l generalizing acc with
  | nil => rfl
  | cons n rest ih =>
    simp only [List.foldl_cons]
    have hkeys := map_fst_dictInsert_of_mem n.speaker (mkAnalysis n.text) acc
      (h n (List.mem_cons_self _ _))
    rw [ih (dictInsert n.speaker (mkAnalysis n.text) acc)
      (fun m hm => by rw [hkeys]; exact h m (List.mem_cons_of_mem _ hm))]
    exact hkeys

theorem buildAnalyses_length_le_one (narratives : List Narrative)
    (h : ∀ x ∈ narratives, ∀ y ∈ narratives, x.speaker = y.speaker) :
    (buildAnalyses narratives).length ≤ 1 := by
  cases narratives with
  | nil => simp [buildAnalyses]
  | cons n rest =>
    unfold buildAnalyses
    simp only [List.foldl_cons]
    have hkeys := foldl_dictInsert_keys rest (dictInsert n.speaker (mkAnalysis n.text) [])
      (fun m hm => by
        have : m.speaker = n.speaker :=
          h m (List.mem_cons_of_mem _ hm) n (List.mem_cons_self _ _)
        simp [dictInsert, this])
    have hlen : ((rest.foldl (fun acc2 nar => dictInsert nar.speaker (mkAnalysis nar.text) acc2)
        (dictInsert n.speaker (mkAnalysis n.text) [])).map fun p => p.1).length = 1 := by
      rw [hkeys]
      simp [dictInsert]
    rw [List.length_map] at hlen
    omega

theorem detect_agreements_short (analyses : List (String × Analysis))
    (h : analyses.length ≤ 1) : detect_agreements analyses = [] := by
  match analyses, h with
  | [], _ => rfl
  | [x], _ => rfl

/-! ## Lemmas about the value extractor ordering -/

theorem scores_extract_eq (t : String) : (extract_values t).scores = valueScores t := rfl

theorem keys_scores_extract (t : String) :
    ((extract_values t).scores.map fun p => p.1) = value_keywords.map fun p => p.1 := by
  rw [scores_extract_eq]
  simp only [valueScores, List.map_map]
  rfl

theorem scoreOf_mem_scores (t : String) (p : String × Nat)
    (hp : p ∈ (extract_values t).scores) : scoreOf (extract_values t) p.1 = p.2 := by
  have hnd : ((extract_values t).scores.map fun q => q.1).Nodup := by
    rw [keys_scores_extract]
    decide
  have hfind := find?_eq_of_nodup_keys (extract_values t).scores p.1 p.2 hnd
    (by rcases p with ⟨a, b⟩; exact hp)
  unfold scoreOf
  rw [hfind]
  rfl

/-- The combined descending-score, declaration-order-on-ties relation. -/
def rankRel (r : ValueResult) (a b : String) : Prop :=
  scoreOf r b < scoreOf r a ∨ (scoreOf r a = scoreOf r b ∧ declIdx a < declIdx b)

theorem stableInsert_ranked (x : String × Nat) (l : List (String × Nat))
    (hl : l.Pairwise fun a b => b.2 < a.2 ∨ (a.2 = b.2 ∧ declIdx a.1 < declIdx b.1))
    (hx : ∀ y ∈ l, declIdx x.1 < declIdx y.1) :
    (stableInsert scoreBefore x l).Pairwise
      fun a b => b.2 < a.2 ∨ (a.2 = b.2 ∧ declIdx a.1 < declIdx b.1) := by
  induction l with
  | nil => simp [stableInsert]
  | cons y ys ih =>
    rcases List.pairwise_cons.mp hl with ⟨hy, hys⟩
    simp only [stableInsert]
    by_cases hxy : scoreBefore x y = true
    · simp only [hxy, if_pos]
      refine List.pairwise_cons.mpr ⟨?_, hl⟩
      intro z hz
      have hyx : y.2 ≤ x.2 := by simpa [scoreBefore] using hxy
      have hzle : z.2 ≤ x.2 := by
        rcases List.mem_cons.mp hz with hzy | hz2
        · rw [hzy]; exact hyx
        · rcases hy z hz2 with hlt | ⟨heq, _⟩
          · omega
          · omega
      rcases Nat.lt_or_ge z.2 x.2 with hlt | hge
      · exact Or.inl hlt
      · exact Or.inr ⟨by omega, hx z hz⟩
    · simp only [hxy, if_neg, if_false]
      refine List.pairwise_cons.mpr ⟨?_, ih hys fun z hz => hx z (List.mem_cons_of_mem _ hz)⟩
      intro z hz
      rcases (mem_stableInsert scoreBefore x ys z).mp hz with hzx | hz2
      · have : x.2 < y.2 := by
          have : ¬ y.2 ≤ x.2 := by simpa [scoreBefore] using hxy
          omega
        rw [hzx]
        exact Or.inl this
      · exact hy z hz2

theorem stableSort_ranked (l : List (String × Nat))
    (hl : l.Pairwise fun a b => declIdx a.1 < declIdx b.1) :
    (stableSort scoreBefore l).Pairwise
      fun a b => b.2 < a.2 ∨ (a.2 = b.2 ∧ declIdx a.1 < declIdx b.1) := by
  induction l with
  | nil => simp [stableSort]
  | cons y ys ih =>
    rcases List.pairwise_cons.mp hl with ⟨hy, hys⟩
    simp only [stableSort, List.foldr] at ih ⊢
    exact stableInsert_ranked y _ (ih hys)
      fun z hz => hy z ((mem_stableSort scoreBefore ys z).mp hz)

theorem scores_pairwise_declIdx (t : String) :
    (extract_values t).scores.Pairwise fun a b => declIdx a.1 < declIdx b.1 := by
  rw [scores_extract_eq]
  simp only [valueScores]
  rw [List.pairwise_map]
  have : value_keywords.Pairwise fun a b => declIdx a.1 < declIdx b.1 := by decide
  exact this

theorem lookup_zero_of_sum_zero (l : List (Pramana × Nat))
    (h : (l.map fun p => p.2).sum = 0) (k : Pramana) : lookupScore l k = 0 := by
  induction l with
  | nil => rfl
  | cons y ys ih =>
    simp only [List.map_cons, List.sum_cons] at h
    have hy : y.2 = 0 := by omega
    have hys : (ys.map fun p => p.2).sum = 0 := by omega
    unfold lookupScore
    rw [List.find?]
    by_cases hk : (y.1 == k) = true
    · simp only [hk]
      simp [hy]
    · have hkf : (y.1 == k) = false := by simpa using hk
      simp only [hkf]
      exact ih hys

/-! ## Claim theorems -/

/-- C1 counterexample: on a single-narrative input, analyze_dialogue does
not fail; it returns a normal result carrying the one speaker and an
empty hidden-agreements list.  No validation error exists anywhere in the
analyzer. -/
theorem analyze_dialogue_single_returns :
    ((analyze_dialogue [soloNarrative]).individual_analyses.map fun p => p.1) = ["Solo"] ∧
    (analyze_dialogue [soloNarrative]).hidden_agreements = [] ∧
    (analyze_dialogue [soloNarrative]).narratives = [soloNarrative] :=
  ⟨rfl, rfl, rfl⟩

/-- C1 amended: analyze_dialogue performs no speaker-count validation and
never fails; on any input with fewer than two distinct speakers it
returns a normal result whose hidden_agreements list is empty.  The
minimum-two-speakers check lives in the web caller, not in this
component. -/
theorem analyze_dialogue_no_validation (narratives : List Narrative)
    (h : ∀ x ∈ narratives, ∀ y ∈ narratives, x.speaker = y.speaker) :
    (analyze_dialogue narratives).hidden_agreements = [] := by
  have hlen := buildAnalyses_length_le_one narratives h
  show detect_agreements (buildAnalyses narratives) = []
  exact detect_agreements_short _ hlen

/-- C1 witness: the amended theorem applied to the single-narrative
input. -/
theorem analyze_dialogue_no_validation_witness :
    (analyze_dialogue [soloNarrative]).hidden_agreements = [] :=
  analyze_dialogue_no_validation [soloNarrative] (by
    intro x hx y hy
    rw [List.mem_singleton] at hx hy
    rw [hx, hy])

/-- C2 counterexample: on the scenario text, the dominant epistemic
source is anumana, not the testimony category sabda. -/
theorem classify_pramana_c2_not_sabda :
    (classify_pramana c2text).dominant_pramana ≠ Pramana.sabda ∧
    (classify_pramana c2text).dominant_pramana = Pramana.anumana := by
  decide

/-- C2 amended: on the scenario text the testimony and inference
categories tie at one match each, the declaration-order tie-break makes
anumana (inference) the dominant source, and the reasoning chain has its
evidence entry strictly before its inference entry. -/
theorem classify_pramana_c2_scenario :
    (classify_pramana c2text).dominant_pramana = Pramana.anumana ∧
    lookupScore (classify_pramana c2text).scores Pramana.sabda = 1 ∧
    lookupScore (classify_pramana c2text).scores Pramana.anumana = 1 ∧
    ((analyze_reasoning c2text).chain.map fun e => (e.type, e.position)) =
      [(RType.evidence, 0), (RType.inference, 29), (RType.conclusion, 39)] := by
  decide

/-- C9: the whole pipeline is a pure function of the narrative list: two
runs on identical input yield identical analysis results and identical
rendered reports. -/
theorem pipeline_deterministic (ns1 ns2 : List Narrative) (h : ns1 = ns2) :
    analyze_dialogue ns1 = analyze_dialogue ns2 ∧
    generate_report (analyze_dialogue ns1) = generate_report (analyze_dialogue ns2) := by
  subst h
  exact ⟨rfl, rfl⟩

/-- C9 witness: two runs on the same concrete narrative list. -/
theorem pipeline_deterministic_witness :
    generate_report (analyze_dialogue [soloNarrative]) =
      generate_report (analyze_dialogue [soloNarrative]) :=
  (pipeline_deterministic [soloNarrative] [soloNarrative] rfl).2

/-- C10: in the one-word text fairness, the single word is counted once
for the keyword fair (as a prefix of a larger token) and once for the
keyword fairness, so the justice tag scores 2 from one word occurrence. -/
theorem extract_values_prefix_double_count :
    scoreOf (extract_values "fairness") "justice_and_fairness" = 2 ∧
    (extract_values "fairness").top_values = ["justice_and_fairness"] := by
  decide

/-- C4 counterexample: the same two pipeline-produced profiles, labelled
in the two possible orders, yield shared_values lists that differ even as
sets: the related-value expansion appends candidates in label-dependent
order and the 5-entry cap then keeps different tags. -/
theorem detect_agreements_swap_counterexample :
    ((analyze_dialogue [c4narA, c4narB]).hidden_agreements.map fun g => g.shared_values) =
      [["justice_and_fairness", "progress_and_innovation", "freedom_and_autonomy",
        "health_and_wellbeing", "family_protection"]] ∧
    ((analyze_dialogue [c4narB, c4narA]).hidden_agreements.map fun g => g.shared_values) =
      [["justice_and_fairness", "progress_and_innovation", "freedom_and_autonomy",
        "economic_security", "community_wellbeing"]] := by
  with_unfolding_all decide

/-- C4 amended: pramana similarity and reasoning compatibility are exactly
invariant under swapping the person_a and person_b labels, and the
shared-values computation is invariant as a set provided the expanded
candidate list stays within the 5-entry cap in both orders; a capped list
may differ between the two orders. -/
theorem detect_agreements_swap_spec (A B : Analysis) :
    compare_pramana A B = compare_pramana B A ∧
    compare_reasoning A B = compare_reasoning B A ∧
    ((sharedUncapped A.values.top_values B.values.top_values).length ≤ 5 →
      (sharedUncapped B.values.top_values A.values.top_values).length ≤ 5 →
      (find_shared_values A B).toFinset = (find_shared_values B A).toFinset) := by
  refine ⟨compare_pramana_symm A B, compare_reasoning_symm A B, ?_⟩
  intro hab hba
  unfold find_shared_values
  rw [List.take_of_length_le hab, List.take_of_length_le hba]
  ext z
  rw [List.mem_toFinset, List.mem_toFinset]
  exact mem_sharedUncapped_symm _ _ z

/-- C4 witness: the amended theorem applied to two concrete profiles with
related values, where the candidate list stays under the cap. -/
theorem detect_agreements_swap_spec_witness :
    compare_pramana (mkAnalysis "health matters") (mkAnalysis "family matters") =
      compare_pramana (mkAnalysis "family matters") (mkAnalysis "health matters") ∧
    (find_shared_values (mkAnalysis "health matters") (mkAnalysis "family matters")).toFinset =
      (find_shared_values (mkAnalysis "family matters") (mkAnalysis "health matters")).toFinset := by
  have h := detect_agreements_swap_spec (mkAnalysis "health matters") (mkAnalysis "family matters")
  exact ⟨h.1, h.2.2 (by decide) (by decide)⟩

/-- C5: every unordered pair of speakers passes the inclusion rule, since
the agreement strength is always at least 0.25 times 0.3 plus 0.15 times
0.2, which equals 0.105 and exceeds the 0.1 threshold; detect_agreements
therefore returns an agreement for each of the n(n-1)/2 pairs. -/
theorem detect_agreements_count (analyses : List (String × Analysis)) :
    (∀ ag ∈ detect_agreements analyses, 21/200 ≤ ag.agreement_strength) ∧
    (detect_agreements analyses).length = analyses.length * (analyses.length - 1) / 2 := by
  constructor
  · intro ag hag
    exact strength_of_mem_detect analyses ag hag
  · unfold detect_agreements
    rw [length_stableSort,
      length_filterMap_of_isSome _ _ fun pq _ => agreementFor_isSome pq.1 pq.2,
      length_pairsOf]

/-- C5 witness: the count theorem applied to a concrete two-speaker
input, where exactly one agreement is produced. -/
theorem detect_agreements_count_witness :
    (detect_agreements c3analyses).length =
      c3analyses.length * (c3analyses.length - 1) / 2 :=
  (detect_agreements_count c3analyses).2

/-- C8: the reasoning chain returned by analyze_reasoning is sorted by
non-decreasing character position, and has_logical_structure holds
exactly when the chain is non-empty. -/
theorem analyze_reasoning_chain_spec (t : String) :
    (analyze_reasoning t).chain.Pairwise (fun a b => a.position ≤ b.position) ∧
    ((analyze_reasoning t).has_logical_structure = true ↔ (analyze_reasoning t).chain ≠ []) := by
  have htot : ∀ x y : ChainEntry, posBefore x y = true ∨ posBefore y x = true := by
    intro x y
    simp only [posBefore, decide_eq_true_eq]
    exact Nat.le_total x.position y.position
  have htrans : ∀ x y z : ChainEntry,
      posBefore x y = true → posBefore y z = true → posBefore x z = true := by
    intro x y z hxy hyz
    simp only [posBefore, decide_eq_true_eq] at *
    exact Nat.le_trans hxy hyz
  have hgen : ∀ l : List ChainEntry,
      (stableSort posBefore l).Pairwise fun a b => a.position ≤ b.position := by
    intro l
    exact (pairwise_stableSort posBefore htot htrans l).imp fun h => by
      simpa [posBefore, decide_eq_true_eq] using h
  constructor
  · simp only [analyze_reasoning]
    exact hgen _
  · simp only [analyze_reasoning]
    rw [decide_eq_true_eq, List.length_pos]

/-- C8 witness: the chain specification applied to the scenario text. -/
theorem analyze_reasoning_chain_spec_witness :
    (analyze_reasoning c2text).has_logical_structure = true ↔
      (analyze_reasoning c2text).chain ≠ [] :=
  (analyze_reasoning_chain_spec c2text).2

/-- C3 counterexample: a single agreement with pramana similarity 0.9
already triggers the epistemology-based recommendation, although only one
pair, not more than one, has similarity above 0.6. -/
theorem generate_dialogue_recommendations_counterexample :
    generate_dialogue_recommendations c3ags = [pramana_rec 1] ∧
    (c3ags.filter fun a => (6:ℚ)/10 < a.pramana_similarity).length = 1 := by
  with_unfolding_all decide

/-- C3 amended: for a non-empty agreement list the epistemology-based
recommendation is included if and only if at least one pair has pramana
similarity above 0.6, and at most four recommendations are produced. -/
theorem generate_dialogue_recommendations_spec (agreements : List Agreement)
    (hne : agreements ≠ []) :
    ((∃ a ∈ agreements, (6:ℚ)/10 < a.pramana_similarity) ↔
      (pramana_rec_block agreements ≠ [] ∧
        ∀ s ∈ pramana_rec_block agreements, s ∈ generate_dialogue_recommendations agreements)) ∧
    (generate_dialogue_recommendations agreements).length ≤ 4 := by
  obtain ⟨strongest, rest, rfl⟩ := List.exists_cons_of_ne_nil hne
  have hblock_len : (pramana_rec_block (strongest :: rest)).length ≤ 1 := by
    simp only [pramana_rec_block]
    split <;> simp
  constructor
  · constructor
    · rintro ⟨a, ha, hsim⟩
      have hmem : a ∈ (strongest :: rest).filter fun x => decide ((6:ℚ)/10 < x.pramana_similarity) :=
        List.mem_filter.mpr ⟨ha, decide_eq_true hsim⟩
      have hpos : 0 < ((strongest :: rest).filter fun x =>
          decide ((6:ℚ)/10 < x.pramana_similarity)).length :=
        List.length_pos.mpr (List.ne_nil_of_mem hmem)
      have hblock : pramana_rec_block (strongest :: rest) =
          [pramana_rec ((strongest :: rest).filter fun x =>
            decide ((6:ℚ)/10 < x.pramana_similarity)).length] := by
        unfold pramana_rec_block
        rw [if_pos hpos]
      refine ⟨by rw [hblock]; exact List.cons_ne_nil _ _, ?_⟩
      intro s hs
      simp only [generate_dialogue_recommendations]
      rw [List.mem_append, List.mem_append, List.mem_append]
      exact Or.inl (Or.inr hs)
    · rintro ⟨hblock_ne, -⟩
      unfold pramana_rec_block at hblock_ne
      by_cases hpos : 0 < ((strongest :: rest).filter fun x =>
          decide ((6:ℚ)/10 < x.pramana_similarity)).length
      · have hfil := List.length_pos.mp hpos
        obtain ⟨a, ha⟩ := List.exists_mem_of_ne_nil _ hfil
        rcases List.mem_filter.mp ha with ⟨ha2, hp⟩
        exact ⟨a, ha2, of_decide_eq_true hp⟩
      · rw [if_neg hpos] at hblock_ne
        exact absurd rfl hblock_ne
  · simp only [generate_dialogue_recommendations]
    rw [List.length_append, List.length_append, List.length_append]
    have h1 : ∀ (c : Prop) [Decidable c] (s : String),
        (if c then [s] else []).length ≤ 1 := by
      intro c _ s
      split <;> simp
    have hr1 := h1 ((6:ℚ)/10 < strongest.agreement_strength)
      ("Strong agreement detected between " ++ strongest.person_a ++ " and "
        ++ strongest.person_b ++ ". "
        ++ "Build on their shared values: "
        ++ String.intercalate ", " (strongest.shared_values.take 2) ++ ".")
    have hr2 := h1 (3 ≤ (allSharedValues (strongest :: rest)).length)
      ("Multiple shared values detected across speakers: "
        ++ String.intercalate ", " ((allSharedValues (strongest :: rest)).take 3) ++ ". "
        ++ "Frame discussion around these common concerns.")
    have hr4 := h1 (3 < (strongest :: rest).length)
      ("Multiple hidden agreements suggest this group has more common ground than apparent. "
        ++ "Focus dialogue on shared values to find compromise solutions.")
    omega

/-- C3 witness: the amended theorem applied to the concrete one-agreement
input. -/
theorem generate_dialogue_recommendations_spec_witness :
    (generate_dialogue_recommendations c3ags).length ≤ 4 :=
  (generate_dialogue_recommendations_spec c3ags (by with_unfolding_all decide)).2

/-- C6: top_values has at most five entries, every listed entry has a
strictly positive score, and the entries descend by score with ties
resolved by taxonomy declaration order. -/
theorem extract_values_top_spec (t : String) :
    (extract_values t).top_values.length ≤ 5 ∧
    (∀ v ∈ (extract_values t).top_values, 0 < scoreOf (extract_values t) v) ∧
    (extract_values t).top_values.Pairwise (rankRel (extract_values t)) := by
  have htop : (extract_values t).top_values =
      (((stableSort scoreBefore (valueScores t)).filter
        fun p => 0 < p.2).map fun p => p.1).take 5 := by
    simp only [extract_values]
  rw [← scores_extract_eq] at htop
  refine ⟨?_, ?_, ?_⟩
  · rw [htop, List.length_take]
    exact Nat.min_le_left _ _
  · intro v hv
    rw [htop] at hv
    have hv2 := List.take_subset _ _ hv
    rcases List.mem_map.mp hv2 with ⟨p, hpfil, rfl⟩
    rcases List.mem_filter.mp hpfil with ⟨hpsort, hppos⟩
    have hp2 : p ∈ (extract_values t).scores :=
      (mem_stableSort scoreBefore _ p).mp hpsort
    rw [scoreOf_mem_scores t p hp2]
    exact of_decide_eq_true hppos
  · have h1 := stableSort_ranked (extract_values t).scores (scores_pairwise_declIdx t)
    have h2 := h1.filter fun p => decide (0 < p.2)
    have h3 : ((stableSort scoreBefore (extract_values t).scores).filter
        fun p => 0 < p.2).Pairwise
          fun a b => rankRel (extract_values t) a.1 b.1 := by
      refine List.Pairwise.imp_of_mem ?_ h2
      intro a b ha hb hr
      have ha2 : a ∈ (extract_values t).scores :=
        (mem_stableSort scoreBefore _ a).mp (List.mem_filter.mp ha).1
      have hb2 : b ∈ (extract_values t).scores :=
        (mem_stableSort scoreBefore _ b).mp (List.mem_filter.mp hb).1
      unfold rankRel
      rw [scoreOf_mem_scores t a ha2, scoreOf_mem_scores t b hb2]
      exact hr
    have h4 := List.pairwise_map.mpr h3
    rw [htop]
    exact h4.sublist (List.take_sublist _ _)

/-- C6 witness: the specification applied to a concrete text. -/
theorem extract_values_top_spec_witness :
    (extract_values "fair and equal treatment").top_values.length ≤ 5 :=
  (extract_values_top_spec "fair and equal treatment").1

/-- C7: the confidence of a pramana classification always equals the
dominant score divided by max(total, 1), and on an all-zero score vector
the dominant source defaults to pratyaksha with confidence zero. -/
theorem classify_pramana_confidence_spec (t : String) :
    (classify_pramana t).confidence =
      (lookupScore (classify_pramana t).scores (classify_pramana t).dominant_pramana : ℚ) /
        ((max (scoresSum (classify_pramana t)) 1 : Nat) : ℚ) ∧
    (scoresSum (classify_pramana t) = 0 →
      (classify_pramana t).dominant_pramana = Pramana.pratyaksha ∧
      (classify_pramana t).confidence = 0) := by
  have hsc : (classify_pramana t).scores = pramanaScores t := rfl
  have hsum : scoresSum (classify_pramana t) =
      ((classify_pramana t).scores.map fun p => p.2).sum := rfl
  have hdom : (classify_pramana t).dominant_pramana =
      if scoresSum (classify_pramana t) = 0 then Pramana.pratyaksha
      else maxKey (classify_pramana t).scores := by
    simp only [classify_pramana, scoresSum, hsc]
  have hconf : (classify_pramana t).confidence =
      (lookupScore (classify_pramana t).scores (classify_pramana t).dominant_pramana : ℚ) /
        ((max (scoresSum (classify_pramana t)) 1 : Nat) : ℚ) := by
    simp only [classify_pramana, scoresSum, hsc, hdom]
  refine ⟨hconf, ?_⟩
  intro h0
  have hdom0 : (classify_pramana t).dominant_pramana = Pramana.pratyaksha := by
    rw [hdom, if_pos h0]
  refine ⟨hdom0, ?_⟩
  have hlook : lookupScore (classify_pramana t).scores
      (classify_pramana t).dominant_pramana = 0 := by
    apply lookup_zero_of_sum_zero
    rw [← hsum]
    exact h0
  rw [hconf, hlook, h0]
  simp

/-- C7 witness: the specification applied to a text with no matches. -/
theorem classify_pramana_confidence_spec_witness :
    (classify_pramana "zzz").dominant_pramana = Pramana.pratyaksha ∧
    (classify_pramana "zzz").confidence = 0 :=
  (classify_pramana_confidence_spec "zzz").2 (by decide)

end Samvad
